import Mathlib

/-!
# Verification of the fault-tolerant request pipeline in `day-06-error-handling`

Shallow embedding of `resilient_agent.go`: the token-bucket rate limiter,
retry manager with exponential backoff, circuit breaker, metrics monitor and
the `ResilientAgent.Chat` composition, with theorems checking the spec's
claims about them.

Modelling conventions:
* wall-clock times and durations (`time.Time`, `time.Duration`, `float64`
  seconds) are rationals `ℚ`, measured in seconds;
* Go `int` counters are `ℤ`;
* Go `error` values are their message strings, as `List Char`, so that the
  substring matching of `isRetriable` can be stated on them;
* methods that mutate a struct become functions returning the new struct;
* sources of nondeterminism (the clock, `rand.Float64()`, context
  cancellation, the outcome of the underlying API call) are explicit
  parameters.
-/

/-- Go `error` values, modelled as their message string. -/
abbrev GoError := List Char

/-! ## Rate limiter (`RateLimitConfig`, `RateLimiter`, `Allow`) -/

/-- `RateLimitConfig` from `resilient_agent.go` (the fields the limiter reads). -/
structure RateLimitConfig where
  RequestsPerMinute : ℤ
  BurstSize : ℤ

/-- `RateLimiter` state: `tokens`, `lastRefill` and the `requestTimes` log.
The mutex only serialises calls and has no sequential content. -/
structure RateLimiter where
  tokens : ℚ
  lastRefill : ℚ
  requestTimes : List ℚ

/-- `NewRateLimiter`: full bucket, `lastRefill` set to the creation time. -/
def NewRateLimiter (config : RateLimitConfig) (now : ℚ) : RateLimiter :=
  { tokens := (config.BurstSize : ℚ), lastRefill := now, requestTimes := [] }

/-- The `for i, reqTime := range rl.requestTimes` cleanup loop in
`RateLimiter.Allow`: slice from the first entry strictly after `cutoff`;
if no entry qualifies the slice assignment never runs and the list is kept. -/
def cleanRequestTimes (times : List ℚ) (cutoff : ℚ) : List ℚ :=
  match times.findIdx? (fun t => decide (cutoff < t)) with
  | some i => times.drop i
  | none => times

/-- `RateLimiter.Allow`: lazy refill from elapsed wall-clock time, capped at
the burst size, then consume one token when at least `1.0` is available. -/
def RateLimiter.Allow (config : RateLimitConfig) (rl : RateLimiter) (now : ℚ) :
    Bool × RateLimiter :=
  let elapsed := now - rl.lastRefill
  let tokensToAdd := elapsed * (config.RequestsPerMinute : ℚ) / 60
  let tokens := min (rl.tokens + tokensToAdd) ((config.BurstSize : ℚ))
  if 1 ≤ tokens then
    (true, { tokens := tokens - 1, lastRefill := now,
             requestTimes := cleanRequestTimes (rl.requestTimes ++ [now]) (now - 60) })
  else
    (false, { tokens := tokens, lastRefill := now, requestTimes := rl.requestTimes })

/-- A sequence of `Allow` calls at the given wall-clock times. -/
def runAllow (config : RateLimitConfig) (rl : RateLimiter) : List ℚ → RateLimiter
  | [] => rl
  | t :: ts => runAllow config (RateLimiter.Allow config rl t).2 ts

/-! ## Retry manager (`RetryConfig`, `contains`, `isRetriable`, `calculateDelay`, `Execute`) -/

/-- `indexOfSubstring` from `resilient_agent.go`: first index `i` with
`s[i:i+len(substr)] == substr`, else `-1`.  (When `substr` is longer than `s`
the Go loop body never runs; the extra `i = 0` probe below is then false.) -/
def indexOfSubstring (s substr : List Char) : ℤ :=
  match (List.range (s.length - substr.length + 1)).find?
      (fun i => decide ((s.drop i).take substr.length = substr)) with
  | some i => (i : ℤ)
  | none => -1

/-- `contains` from `resilient_agent.go` (substring test written as the source
writes it: equality, then proper length with a head, tail or inner match). -/
def contains (s substr : List Char) : Bool :=
  decide (substr.length ≤ s.length) &&
    (decide (s = substr) ||
      (decide (substr.length < s.length) &&
        (decide (s.take substr.length = substr) ||
          decide (s.drop (s.length - substr.length) = substr) ||
          decide (indexOfSubstring s substr ≠ -1))))

/-- `RetryConfig`.  `MaxAttempts` is modelled as `ℕ`: for non-positive values
the Go attempt loop never runs, exactly as for `0`. -/
structure RetryConfig where
  MaxAttempts : ℕ
  BaseDelay : ℚ
  MaxDelay : ℚ
  BackoffMultiplier : ℚ
  JitterPercent : ℤ
  RetriableErrors : List GoError

/-- `RetryManager.isRetriable`: the error message contains one of the
configured retriable markers. -/
def RetryManager.isRetriable (config : RetryConfig) (err : GoError) : Bool :=
  config.RetriableErrors.any (fun retriableErr => contains err retriableErr)

/-- `RetryManager.calculateDelay`.  `rand01` is the `rm.random.Float64()`
sample in `[0,1)`; the float arithmetic is modelled exactly over `ℚ`. -/
def RetryManager.calculateDelay (config : RetryConfig) (rand01 : ℚ) (attempt : ℕ) : ℚ :=
  let exponentialDelay := config.BaseDelay * config.BackoffMultiplier ^ (attempt - 1)
  let exponentialDelay :=
    if config.MaxDelay < exponentialDelay then config.MaxDelay else exponentialDelay
  let jitter :=
    if 0 < config.JitterPercent then
      1 + (rand01 * 2 - 1) * ((config.JitterPercent : ℚ) / 100)
    else 1
  exponentialDelay * jitter

/-- Outcome of `RetryManager.Execute`: the returned `(string, error)` pair
plus the number of times the operation was invoked. -/
structure ExecResult where
  result : String
  err : Option GoError
  calls : ℕ
deriving DecidableEq

/-- The `for attempt := 1; attempt <= MaxAttempts` loop of
`RetryManager.Execute`.  `op k` is the outcome of the `k`-th invocation of
the operation; `ctxDone k` says whether the caller's context is cancelled
during the inter-attempt delay following attempt `k`. -/
def RetryManager.ExecuteFrom (config : RetryConfig) (op : ℕ → Except GoError String)
    (ctxDone : ℕ → Bool) (ctxErr : GoError) :
    ℕ → Option GoError → ExecResult
  | attempt, lastErr =>
    if h : attempt ≤ config.MaxAttempts then
      match op attempt with
      | .ok result => ⟨result, none, attempt⟩
      | .error err =>
        if attempt = config.MaxAttempts || !(RetryManager.isRetriable config err) then
          ⟨"", some err, attempt⟩
        else if ctxDone attempt then
          ⟨"", some ctxErr, attempt⟩
        else
          RetryManager.ExecuteFrom config op ctxDone ctxErr (attempt + 1) (some err)
    else
      ⟨"", lastErr, attempt - 1⟩
  termination_by attempt _ => config.MaxAttempts + 1 - attempt
  decreasing_by omega

/-- `RetryManager.Execute` starts the loop at attempt `1` with a nil
`lastErr`. -/
def RetryManager.Execute (config : RetryConfig) (op : ℕ → Except GoError String)
    (ctxDone : ℕ → Bool) (ctxErr : GoError) : ExecResult :=
  RetryManager.ExecuteFrom config op ctxDone ctxErr 1 none

/-! ## Circuit breaker (`CircuitBreakerConfig`, `CircuitBreaker`) -/

/-- `CircuitBreakerConfig` from `resilient_agent.go`. -/
structure CircuitBreakerConfig where
  FailureThreshold : ℤ
  RecoveryTimeout : ℚ
  TestRequestRate : ℚ
  ConsecutiveSuccesses : ℤ

/-- `CircuitState` (`CircuitClosed` / `CircuitOpen` / `CircuitHalfOpen`). -/
inductive CircuitState
  | CircuitClosed
  | CircuitOpen
  | CircuitHalfOpen
deriving DecidableEq

/-- `CircuitState.String()` from `resilient_agent.go`. -/
def CircuitState.goString : CircuitState → String
  | .CircuitClosed => "CLOSED"
  | .CircuitOpen => "OPEN"
  | .CircuitHalfOpen => "HALF_OPEN"

/-- `CircuitBreaker` mutable state. -/
structure CircuitBreaker where
  state : CircuitState
  failureCount : ℤ
  lastFailureTime : ℚ
  successCount : ℤ
deriving DecidableEq

/-- `NewCircuitBreaker`: Closed state, zero-valued counters and timestamp. -/
def NewCircuitBreaker : CircuitBreaker :=
  { state := .CircuitClosed, failureCount := 0, lastFailureTime := 0, successCount := 0 }

/-- `shouldAttemptReset`: `time.Since(lastFailureTime) >= RecoveryTimeout`. -/
def CircuitBreaker.shouldAttemptReset (config : CircuitBreakerConfig)
    (cb : CircuitBreaker) (now : ℚ) : Bool :=
  decide (config.RecoveryTimeout ≤ now - cb.lastFailureTime)

/-- `shouldAllowTestRequest`: `rand.Float64() < TestRequestRate`. -/
def CircuitBreaker.shouldAllowTestRequest (config : CircuitBreakerConfig)
    (rand01 : ℚ) : Bool :=
  decide (rand01 < config.TestRequestRate)

/-- `CircuitBreaker.Allow`: a read-only admission check (the method takes the
read lock and performs no assignment to any field). -/
def CircuitBreaker.Allow (config : CircuitBreakerConfig) (cb : CircuitBreaker)
    (now rand01 : ℚ) : Bool :=
  match cb.state with
  | .CircuitClosed => true
  | .CircuitOpen => CircuitBreaker.shouldAttemptReset config cb now
  | .CircuitHalfOpen => CircuitBreaker.shouldAllowTestRequest config rand01

/-- `CircuitBreaker.RecordFailure`. -/
def CircuitBreaker.RecordFailure (config : CircuitBreakerConfig)
    (cb : CircuitBreaker) (now : ℚ) : CircuitBreaker :=
  let cb := { cb with failureCount := cb.failureCount + 1, lastFailureTime := now,
                      successCount := 0 }
  if cb.state = .CircuitClosed ∧ config.FailureThreshold ≤ cb.failureCount then
    { cb with state := .CircuitOpen }
  else if cb.state = .CircuitHalfOpen then
    { cb with state := .CircuitOpen }
  else cb

/-- `CircuitBreaker.RecordSuccess`. -/
def CircuitBreaker.RecordSuccess (config : CircuitBreakerConfig)
    (cb : CircuitBreaker) : CircuitBreaker :=
  let cb := { cb with failureCount := 0, successCount := cb.successCount + 1 }
  if cb.state = .CircuitOpen then
    { cb with state := .CircuitHalfOpen }
  else if cb.state = .CircuitHalfOpen ∧ config.ConsecutiveSuccesses ≤ cb.successCount then
    { cb with state := .CircuitClosed, successCount := 0 }
  else cb

/-- `CircuitBreaker.Reset`. -/
def CircuitBreaker.Reset (cb : CircuitBreaker) : CircuitBreaker :=
  { cb with state := .CircuitClosed, failureCount := 0, successCount := 0 }

/-- A run of consecutive `RecordFailure` calls at the given wall-clock times. -/
def recordFailures (config : CircuitBreakerConfig) (cb : CircuitBreaker) :
    List ℚ → CircuitBreaker
  | [] => cb
  | t :: ts => recordFailures config (CircuitBreaker.RecordFailure config cb t) ts

/-- A run of `n` consecutive `RecordSuccess` calls. -/
def recordSuccesses (config : CircuitBreakerConfig) (cb : CircuitBreaker) :
    ℕ → CircuitBreaker
  | 0 => cb
  | n + 1 => recordSuccesses config (CircuitBreaker.RecordSuccess config cb) n

/-- The circuit breaker's public mutator and reader calls, as one event type. -/
inductive CBEvent
  | allowEv (now rand01 : ℚ)
  | recordFailureEv (now : ℚ)
  | recordSuccessEv
  | resetEv
deriving DecidableEq

/-- The state transition performed by each circuit-breaker call.  `Allow`
(lines 400–414) takes the read lock and assigns no field, so its transition
is the identity. -/
def cbStep (config : CircuitBreakerConfig) (cb : CircuitBreaker) : CBEvent → CircuitBreaker
  | .allowEv _ _ => cb
  | .recordFailureEv now => CircuitBreaker.RecordFailure config cb now
  | .recordSuccessEv => CircuitBreaker.RecordSuccess config cb
  | .resetEv => CircuitBreaker.Reset cb

/-! ## Monitor (`Monitor`, record methods, `GetMetrics`) -/

/-- `Monitor` counters and state (the `config` field is carried by the Go
struct but never read by any method modelled here). -/
structure Monitor where
  totalRequests : ℤ
  successfulRequests : ℤ
  failedRequests : ℤ
  totalRetries : ℤ
  successfulRetries : ℤ
  failedRetries : ℤ
  circuitBreakerTrips : ℤ
  rateLimitedRequests : ℤ
  responseTimes : List ℚ
  lastAPISuccess : ℚ
  lastAPIFailure : ℚ

/-- `NewMonitor`: all counters zero, empty latency log. -/
def NewMonitor : Monitor := ⟨0, 0, 0, 0, 0, 0, 0, 0, [], 0, 0⟩

/-- `Monitor.RecordSuccess`: append the sample, then keep only the most
recent `1000` samples. -/
def Monitor.RecordSuccess (m : Monitor) (duration now : ℚ) : Monitor :=
  let m := { m with totalRequests := m.totalRequests + 1,
                    successfulRequests := m.successfulRequests + 1,
                    responseTimes := m.responseTimes ++ [duration],
                    lastAPISuccess := now }
  if 1000 < m.responseTimes.length then
    { m with responseTimes := m.responseTimes.drop (m.responseTimes.length - 1000) }
  else m

/-- `Monitor.RecordFailure`: append the sample.  Unlike `RecordSuccess`, the
source performs no eviction here. -/
def Monitor.RecordFailure (m : Monitor) (duration now : ℚ) : Monitor :=
  { m with totalRequests := m.totalRequests + 1,
           failedRequests := m.failedRequests + 1,
           responseTimes := m.responseTimes ++ [duration],
           lastAPIFailure := now }

/-- `Monitor.RecordRateLimited`. -/
def Monitor.RecordRateLimited (m : Monitor) : Monitor :=
  { m with totalRequests := m.totalRequests + 1,
           rateLimitedRequests := m.rateLimitedRequests + 1 }

/-! ## Resilient agent composition (`ReliabilityConfig`, `Chat`) -/

/-- `MonitoringConfig` (carried in the config struct; no modelled method
reads it). -/
structure MonitoringConfig where
  MetricsEnabled : Bool
  HealthChecksEnabled : Bool
  AlertThreshold : ℚ
  MetricsRetention : ℚ

/-- `ReliabilityConfig`. -/
structure ReliabilityConfig where
  Retry : RetryConfig
  CircuitBreaker : CircuitBreakerConfig
  RateLimit : RateLimitConfig
  Monitoring : MonitoringConfig

/-- The mutable components of a `ResilientAgent` touched by `Chat`. -/
structure AgentState where
  rateLimiter : RateLimiter
  circuitBreaker : CircuitBreaker
  monitor : Monitor

/-- What one `Chat` call returns and leaves behind: the `(response, error)`
pair, the new component states, and how many times the underlying operation
(`performRequest`) was invoked. -/
structure ChatOutcome where
  response : String
  err : Option GoError
  state : AgentState
  opCalls : ℕ

/-- `ResilientAgent.Chat`.  `now` is the wall clock at entry (`startTime`);
`sinceCB` is the elapsed time observed when a circuit-open rejection is
recorded, `sinceEnd` the elapsed time when the retry-wrapped execution
returns; `cbRand` is the half-open test-request sample; `op`, `ctxDone` and
`ctxErr` are the retry loop's oracles as in `RetryManager.Execute`. -/
def ResilientAgent.Chat (config : ReliabilityConfig) (s : AgentState)
    (now sinceCB sinceEnd cbRand : ℚ)
    (op : ℕ → Except GoError String) (ctxDone : ℕ → Bool) (ctxErr : GoError) :
    ChatOutcome :=
  let rlCall := RateLimiter.Allow config.RateLimit s.rateLimiter now
  if !rlCall.1 then
    { response := "", err := some ("rate limit exceeded".toList),
      state := { s with rateLimiter := rlCall.2,
                        monitor := s.monitor.RecordRateLimited },
      opCalls := 0 }
  else if !(CircuitBreaker.Allow config.CircuitBreaker s.circuitBreaker now cbRand) then
    { response := "", err := some ("circuit breaker is open".toList),
      state := { s with rateLimiter := rlCall.2,
                        monitor := s.monitor.RecordFailure sinceCB (now + sinceCB) },
      opCalls := 0 }
  else
    let r := RetryManager.Execute config.Retry op ctxDone ctxErr
    match r.err with
    | some e =>
      { response := "", err := some e,
        state := { rateLimiter := rlCall.2,
                   circuitBreaker := CircuitBreaker.RecordFailure config.CircuitBreaker
                     s.circuitBreaker (now + sinceEnd),
                   monitor := s.monitor.RecordFailure sinceEnd (now + sinceEnd) },
        opCalls := r.calls }
    | none =>
      { response := r.result, err := none,
        state := { rateLimiter := rlCall.2,
                   circuitBreaker := CircuitBreaker.RecordSuccess config.CircuitBreaker
                     s.circuitBreaker,
                   monitor := s.monitor.RecordSuccess sinceEnd (now + sinceEnd) },
        opCalls := r.calls }

/-! ## Metrics snapshot (`Metrics`, the bubble sort, `GetMetrics`) -/

/-- One adjacent-compare-and-swap pass of the in-place sort in
`Monitor.GetMetrics` (`if sorted[j] > sorted[j+1] { swap }`). -/
def bubblePass : List ℚ → List ℚ
  | [] => []
  | [a] => [a]
  | a :: b :: rest =>
    if b < a then b :: bubblePass (a :: rest) else a :: bubblePass (b :: rest)
  termination_by l => l.length
  decreasing_by all_goals simp

/-- The ascending sorted copy the Go nested loops build: the source runs
`n-1` passes with a shrinking inner bound; `n` full passes compute the same
list (the trailing comparisons of a pass touch an already-sorted suffix). -/
def bubbleSort (l : List ℚ) : List ℚ := bubblePass^[l.length] l

/-- The `Metrics` snapshot struct. -/
structure Metrics where
  TotalRequests : ℤ
  SuccessfulRequests : ℤ
  FailedRequests : ℤ
  ErrorRate : ℚ
  TotalRetries : ℤ
  SuccessfulRetries : ℤ
  FailedRetries : ℤ
  RetrySuccessRate : ℚ
  CircuitBreakerTrips : ℤ
  CircuitBreakerState : String
  LastCircuitBreakerTrip : ℚ
  RateLimitedRequests : ℤ
  RequestsPerMinute : ℚ
  QuotaUsage : ℚ
  AvgResponseTime : ℚ
  P95ResponseTime : ℚ
  FastestResponse : ℚ
  SlowestResponse : ℚ

/-- `Monitor.GetMetrics`.  The response-time loop folds total/fastest/slowest
starting from the first sample; `p95Index` is `int(float64(n) * 0.95)`, whose
float product rounds to the exact `0.95·n` at these magnitudes, i.e.
`⌊0.95·n⌋`.  (`AvgResponseTime` is exact division here; the Go
`time.Duration` division only truncates below the nanosecond.) -/
def Monitor.GetMetrics (m : Monitor) (cb : CircuitBreaker) (rl : RateLimiter) : Metrics :=
  let metrics : Metrics := {
    TotalRequests := m.totalRequests
    SuccessfulRequests := m.successfulRequests
    FailedRequests := m.failedRequests
    ErrorRate := if 0 < m.totalRequests then
        (m.failedRequests : ℚ) / (m.totalRequests : ℚ) else 0
    TotalRetries := m.totalRetries
    SuccessfulRetries := m.successfulRetries
    FailedRetries := m.failedRetries
    RetrySuccessRate := if 0 < m.totalRetries then
        (m.successfulRetries : ℚ) / (m.totalRetries : ℚ) else 0
    CircuitBreakerTrips := m.circuitBreakerTrips
    CircuitBreakerState := cb.state.goString
    LastCircuitBreakerTrip := 0
    RateLimitedRequests := m.rateLimitedRequests
    RequestsPerMinute := (rl.requestTimes.length : ℚ)
    QuotaUsage := 0
    AvgResponseTime := 0
    P95ResponseTime := 0
    FastestResponse := 0
    SlowestResponse := 0 }
  if 0 < m.responseTimes.length then
    let total := m.responseTimes.foldl (· + ·) 0
    let fastest := m.responseTimes.foldl min (m.responseTimes.headD 0)
    let slowest := m.responseTimes.foldl max (m.responseTimes.headD 0)
    let metrics := { metrics with
      AvgResponseTime := total / (m.responseTimes.length : ℚ)
      FastestResponse := fastest
      SlowestResponse := slowest }
    if 20 ≤ m.responseTimes.length then
      let sorted := bubbleSort m.responseTimes
      let p95Index := Nat.floor ((sorted.length : ℚ) * (95 / 100))
      { metrics with P95ResponseTime := sorted.getD p95Index 0 }
    else metrics
  else metrics

/-- Modelled from the spec: "P95 (nearest-rank on a sorted copy)" — the
`⌈0.95·n⌉`-th smallest sample (1-based nearest rank). -/
def nearestRank95 (l : List ℚ) : ℚ :=
  (bubbleSort l).getD (Nat.ceil ((l.length : ℚ) * (95 / 100)) - 1) 0

/-- Twenty latency samples `1, 2, …, 20`. -/
def sample20 : List ℚ :=
  [1, 2, 3, 4, 5, 6, 7, 8, 9, 10, 11, 12, 13, 14, 15, 16, 17, 18, 19, 20]

/-! ## Theorems -/

theorem allow_lastRefill (config : RateLimitConfig) (rl : RateLimiter) (now : ℚ) :
    ((RateLimiter.Allow config rl now).2).lastRefill = now := by
  unfold RateLimiter.Allow
  dsimp only
  split <;> rfl

theorem allow_tokens_bounds (config : RateLimitConfig) (rl : RateLimiter) (now : ℚ)
    (hR : 0 ≤ config.RequestsPerMinute) (hB : 1 ≤ config.BurstSize)
    (h0 : 0 ≤ rl.tokens) (hle : rl.lastRefill ≤ now) :
    0 ≤ ((RateLimiter.Allow config rl now).2).tokens ∧
      ((RateLimiter.Allow config rl now).2).tokens ≤ (config.BurstSize : ℚ) := by
  unfold RateLimiter.Allow
  dsimp only
  have hadd : 0 ≤ (now - rl.lastRefill) * (config.RequestsPerMinute : ℚ) / 60 := by
    apply div_nonneg _ (by norm_num)
    exact mul_nonneg (by linarith) (by exact_mod_cast hR)
  have hBq : (1 : ℚ) ≤ (config.BurstSize : ℚ) := by exact_mod_cast hB
  split
  case isTrue h =>
    constructor
    · simp only
      linarith
    · simp only
      have := min_le_right (rl.tokens + (now - rl.lastRefill) * (config.RequestsPerMinute : ℚ) / 60)
        ((config.BurstSize : ℚ))
      linarith
  case isFalse h =>
    constructor
    · simp only
      exact le_min (by linarith) (by linarith)
    · simp only
      exact min_le_right _ _

theorem runAllow_inv (config : RateLimitConfig)
    (hR : 0 ≤ config.RequestsPerMinute) (hB : 1 ≤ config.BurstSize) :
    ∀ (ts : List ℚ) (rl : RateLimiter), List.Chain (· ≤ ·) rl.lastRefill ts →
      0 ≤ rl.tokens → rl.tokens ≤ (config.BurstSize : ℚ) →
      0 ≤ (runAllow config rl ts).tokens ∧
        (runAllow config rl ts).tokens ≤ (config.BurstSize : ℚ) := by
  intro ts
  induction ts with
  | nil => intro rl _ h0 hub; exact ⟨h0, hub⟩
  | cons t ts ih =>
    intro rl hchain h0 _
    rw [List.chain_cons] at hchain
    have hstep := allow_tokens_bounds config rl t hR hB h0 hchain.1
    have hlr : ((RateLimiter.Allow config rl t).2).lastRefill = t :=
      allow_lastRefill config rl t
    exact ih (RateLimiter.Allow config rl t).2 (by rw [hlr]; exact hchain.2) hstep.1 hstep.2

theorem chain_take {R : ℚ → ℚ → Prop} :
    ∀ (l : List ℚ) (a : ℚ) (n : ℕ), List.Chain R a l → List.Chain R a (l.take n)
  | [], _, _, _ => by simp
  | _ :: _, _, 0, _ => by simp
  | b :: l, a, n + 1, h => by
    rw [List.chain_cons] at h
    simpa [List.take, List.chain_cons] using ⟨h.1, chain_take l b n h.2⟩

/-- **C1**: from the initial state (full bucket) with `BurstSize ≥ 1`, after any
number of `Allow` calls at non-decreasing wall-clock times the token count
stays within `[0, BurstSize]`: lazy refill caps at the burst capacity and a
token is subtracted only when at least `1.0` is available. -/
theorem tokenBucket_bounds (config : RateLimitConfig) (t0 : ℚ) (ts : List ℚ) (n : ℕ)
    (hR : 0 ≤ config.RequestsPerMinute) (hB : 1 ≤ config.BurstSize)
    (hmono : List.Chain (· ≤ ·) t0 ts) :
    0 ≤ (runAllow config (NewRateLimiter config t0) (ts.take n)).tokens ∧
      (runAllow config (NewRateLimiter config t0) (ts.take n)).tokens ≤
        (config.BurstSize : ℚ) := by
  have hBq : (1 : ℚ) ≤ (config.BurstSize : ℚ) := by exact_mod_cast hB
  exact runAllow_inv config hR hB (ts.take n) (NewRateLimiter config t0)
    (chain_take ts t0 n hmono) (by simp [NewRateLimiter]; linarith) (le_refl _)

/-- Witness for C1 at a concrete configuration and call sequence. -/
theorem tokenBucket_bounds_witness :
    0 ≤ (runAllow ⟨60, 10⟩ (NewRateLimiter ⟨60, 10⟩ 0) ([1, 2].take 2)).tokens ∧
      (runAllow ⟨60, 10⟩ (NewRateLimiter ⟨60, 10⟩ 0) ([1, 2].take 2)).tokens ≤
        (((10 : ℤ) : ℚ)) :=
  tokenBucket_bounds ⟨60, 10⟩ 0 [1, 2] 2 (by decide) (by decide)
    (List.Chain.cons (by norm_num) (List.Chain.cons (by norm_num) List.Chain.nil))

theorem executeFrom_exhaust (config : RetryConfig) (op : ℕ → Except GoError String)
    (ctxErr : GoError) (errs : ℕ → GoError)
    (hop : ∀ k, 1 ≤ k → k ≤ config.MaxAttempts → op k = .error (errs k))
    (hret : ∀ k, 1 ≤ k → k ≤ config.MaxAttempts →
      RetryManager.isRetriable config (errs k) = true) :
    ∀ (d attempt : ℕ) (lastErr : Option GoError), 1 ≤ attempt →
      attempt + d = config.MaxAttempts →
      RetryManager.ExecuteFrom config op (fun _ => false) ctxErr attempt lastErr =
        ⟨"", some (errs config.MaxAttempts), config.MaxAttempts⟩ := by
  intro d
  induction d with
  | zero =>
    intro attempt lastErr h1 heq
    have heq' : attempt = config.MaxAttempts := by omega
    subst heq'
    rw [RetryManager.ExecuteFrom, dif_pos le_rfl, hop _ h1 le_rfl]
    simp
  | succ d ih =>
    intro attempt lastErr h1 heq
    have hle : attempt ≤ config.MaxAttempts := by omega
    have hne : ¬(attempt = config.MaxAttempts) := by omega
    rw [RetryManager.ExecuteFrom, dif_pos hle, hop attempt h1 hle]
    have hcond : (decide (attempt = config.MaxAttempts) ||
        !(RetryManager.isRetriable config (errs attempt))) = false := by
      simp [hne, hret attempt h1 hle]
    simp only [hcond]
    simp
    exact ih (attempt + 1) (some (errs attempt)) (by omega) (by omega)

/-- **C2**: when every invocation fails with a retriable error and the context
is never cancelled, `RetryManager.Execute` with `MaxAttempts ≥ 1` invokes the
operation exactly `MaxAttempts` times and returns the final invocation's error
unchanged, with an empty result. -/
theorem retry_exhaustion (config : RetryConfig) (op : ℕ → Except GoError String)
    (ctxErr : GoError) (errs : ℕ → GoError)
    (hM : 1 ≤ config.MaxAttempts)
    (hop : ∀ k, 1 ≤ k → k ≤ config.MaxAttempts → op k = .error (errs k))
    (hret : ∀ k, 1 ≤ k → k ≤ config.MaxAttempts →
      RetryManager.isRetriable config (errs k) = true) :
    RetryManager.Execute config op (fun _ => false) ctxErr =
      ⟨"", some (errs config.MaxAttempts), config.MaxAttempts⟩ :=
  executeFrom_exhaust config op ctxErr errs hop hret
    (config.MaxAttempts - 1) 1 none le_rfl (by omega)

/-- Witness for C2: three attempts, all failing with a `timeout`-classified
error, are invoked exactly three times. -/
theorem retry_exhaustion_witness :
    RetryManager.Execute ⟨3, 1/10, 30, 2, 0, ["timeout".toList]⟩
        (fun _ => .error ("timeout: boom".toList)) (fun _ => false)
        ("context canceled".toList) =
      ⟨"", some ("timeout: boom".toList), 3⟩ := by
  have hr : RetryManager.isRetriable ⟨3, 1/10, 30, 2, 0, ["timeout".toList]⟩
      ("timeout: boom".toList) = true := by decide
  exact retry_exhaustion ⟨3, 1/10, 30, 2, 0, ["timeout".toList]⟩
    (fun _ => .error ("timeout: boom".toList)) ("context canceled".toList)
    (fun _ => "timeout: boom".toList) (by decide)
    (fun _ _ _ => rfl) (fun _ _ _ => hr)

theorem executeFrom_cancel (config : RetryConfig) (op : ℕ → Except GoError String)
    (ctxDone : ℕ → Bool) (ctxErr : GoError) (errs : ℕ → GoError) (k : ℕ)
    (hk1 : 1 ≤ k) (hkM : k < config.MaxAttempts)
    (hop : ∀ j, 1 ≤ j → j ≤ k → op j = .error (errs j))
    (hret : ∀ j, 1 ≤ j → j ≤ k → RetryManager.isRetriable config (errs j) = true)
    (hdone : ∀ j, 1 ≤ j → j < k → ctxDone j = false) (hcancel : ctxDone k = true) :
    ∀ (d attempt : ℕ) (lastErr : Option GoError), 1 ≤ attempt →
      attempt + d = k →
      RetryManager.ExecuteFrom config op ctxDone ctxErr attempt lastErr =
        ⟨"", some ctxErr, k⟩ := by
  intro d
  induction d with
  | zero =>
    intro attempt lastErr h1 heq
    have heq' : attempt = k := by omega
    subst heq'
    have hle : attempt ≤ config.MaxAttempts := by omega
    have hne : ¬(attempt = config.MaxAttempts) := by omega
    rw [RetryManager.ExecuteFrom, dif_pos hle, hop attempt h1 le_rfl]
    have hcond : (decide (attempt = config.MaxAttempts) ||
        !(RetryManager.isRetriable config (errs attempt))) = false := by
      simp [hne, hret attempt h1 le_rfl]
    simp only [hcond]
    simp [hcancel]
  | succ d ih =>
    intro attempt lastErr h1 heq
    have hle : attempt ≤ config.MaxAttempts := by omega
    have hne : ¬(attempt = config.MaxAttempts) := by omega
    have hak : attempt ≤ k := by omega
    rw [RetryManager.ExecuteFrom, dif_pos hle, hop attempt h1 hak]
    have hcond : (decide (attempt = config.MaxAttempts) ||
        !(RetryManager.isRetriable config (errs attempt))) = false := by
      simp [hne, hret attempt h1 hak]
    simp only [hcond]
    simp [hdone attempt h1 (by omega)]
    exact ih (attempt + 1) (some (errs attempt)) (by omega) (by omega)

/-- **C7**: if the context is cancelled during the inter-attempt delay after
attempt `k`, `Execute` returns the context's cancellation error with an empty
result and performs no attempt beyond `k`. -/
theorem cancellation_precedence (config : RetryConfig) (op : ℕ → Except GoError String)
    (ctxDone : ℕ → Bool) (ctxErr : GoError) (errs : ℕ → GoError) (k : ℕ)
    (hk1 : 1 ≤ k) (hkM : k < config.MaxAttempts)
    (hop : ∀ j, 1 ≤ j → j ≤ k → op j = .error (errs j))
    (hret : ∀ j, 1 ≤ j → j ≤ k → RetryManager.isRetriable config (errs j) = true)
    (hdone : ∀ j, 1 ≤ j → j < k → ctxDone j = false) (hcancel : ctxDone k = true) :
    RetryManager.Execute config op ctxDone ctxErr = ⟨"", some ctxErr, k⟩ :=
  executeFrom_cancel config op ctxDone ctxErr errs k hk1 hkM hop hret hdone hcancel
    (k - 1) 1 none le_rfl (by omega)

/-- Witness for C7: cancellation during the delay after the first of three
attempts returns the context error after exactly one invocation. -/
theorem cancellation_precedence_witness :
    RetryManager.Execute ⟨3, 1/10, 30, 2, 0, ["timeout".toList]⟩
        (fun _ => .error ("timeout: boom".toList)) (fun _ => true)
        ("context canceled".toList) =
      ⟨"", some ("context canceled".toList), 1⟩ := by
  have hr : RetryManager.isRetriable ⟨3, 1/10, 30, 2, 0, ["timeout".toList]⟩
      ("timeout: boom".toList) = true := by decide
  exact cancellation_precedence ⟨3, 1/10, 30, 2, 0, ["timeout".toList]⟩
    (fun _ => .error ("timeout: boom".toList)) (fun _ => true)
    ("context canceled".toList) (fun _ => "timeout: boom".toList) 1
    (by decide) (by decide) (fun _ _ _ => rfl) (fun _ _ _ => hr)
    (fun j _ hj => absurd hj (by omega)) rfl

theorem calculateDelay_jitter0 (config : RetryConfig) (rand01 : ℚ)
    (hJ : config.JitterPercent = 0) (j : ℕ) :
    RetryManager.calculateDelay config rand01 j =
      min (config.BaseDelay * config.BackoffMultiplier ^ (j - 1)) config.MaxDelay := by
  unfold RetryManager.calculateDelay
  rw [hJ]
  simp only [lt_self_iff_false, if_false, mul_one]
  rcases le_or_lt (config.BaseDelay * config.BackoffMultiplier ^ (j - 1)) config.MaxDelay
    with h | h
  · rw [if_neg (not_lt.mpr h), min_eq_left h]
  · rw [if_pos h, min_eq_right (le_of_lt h)]

/-- **C6**: with zero jitter the retry delay for attempt `k ≥ 1` equals
`min (BaseDelay · BackoffMultiplier^(k-1)) MaxDelay`; for a multiplier above
`1` it is non-decreasing in `k` and never exceeds `MaxDelay`. -/
theorem backoff_monotone (config : RetryConfig) (rand01 : ℚ) (k : ℕ)
    (hJ : config.JitterPercent = 0) (hB : 0 ≤ config.BaseDelay)
    (hM : 1 < config.BackoffMultiplier) (hk : 1 ≤ k) :
    RetryManager.calculateDelay config rand01 k =
      min (config.BaseDelay * config.BackoffMultiplier ^ (k - 1)) config.MaxDelay ∧
    (∀ k', k ≤ k' → RetryManager.calculateDelay config rand01 k ≤
      RetryManager.calculateDelay config rand01 k') ∧
    RetryManager.calculateDelay config rand01 k ≤ config.MaxDelay := by
  refine ⟨calculateDelay_jitter0 config rand01 hJ k, ?_, ?_⟩
  · intro k' hk'
    rw [calculateDelay_jitter0 config rand01 hJ k, calculateDelay_jitter0 config rand01 hJ k']
    exact min_le_min
      (mul_le_mul_of_nonneg_left (pow_le_pow_right₀ hM.le (by omega)) hB) le_rfl
  · rw [calculateDelay_jitter0 config rand01 hJ k]
    exact min_le_right _ _

/-- Witness for C6 at `BaseDelay = 1/10`, multiplier `2`, attempts `2 ≤ 3`. -/
theorem backoff_monotone_witness :
    RetryManager.calculateDelay ⟨3, 1/10, 30, 2, 0, []⟩ 0 2 =
      min ((1/10 : ℚ) * 2 ^ (2 - 1)) 30 ∧
    RetryManager.calculateDelay ⟨3, 1/10, 30, 2, 0, []⟩ 0 2 ≤
      RetryManager.calculateDelay ⟨3, 1/10, 30, 2, 0, []⟩ 0 3 ∧
    RetryManager.calculateDelay ⟨3, 1/10, 30, 2, 0, []⟩ 0 2 ≤ 30 := by
  have h := backoff_monotone ⟨3, 1/10, 30, 2, 0, []⟩ 0 2 rfl (by norm_num) (by norm_num)
    (by norm_num)
  exact ⟨h.1, h.2.1 3 (by norm_num), h.2.2⟩

theorem recordFailures_below (config : CircuitBreakerConfig) :
    ∀ (ts : List ℚ) (cb : CircuitBreaker), cb.state = .CircuitClosed →
      cb.failureCount + (ts.length : ℤ) < config.FailureThreshold →
      (recordFailures config cb ts).state = .CircuitClosed ∧
      (recordFailures config cb ts).failureCount = cb.failureCount + ts.length := by
  intro ts
  induction ts with
  | nil => intro cb hs _; exact ⟨hs, by simp [recordFailures]⟩
  | cons t ts ih =>
    rintro ⟨st, fc, lt, sc⟩ hs hlt
    simp only at hs hlt
    subst hs
    simp only [List.length_cons] at hlt
    push_cast at hlt
    have hstep : CircuitBreaker.RecordFailure config ⟨.CircuitClosed, fc, lt, sc⟩ t =
        ⟨.CircuitClosed, fc + 1, t, 0⟩ := by
      have h1 : ¬(config.FailureThreshold ≤ fc + 1) := by omega
      unfold CircuitBreaker.RecordFailure
      simp [h1]
    rw [recordFailures, hstep]
    have hrec := ih ⟨.CircuitClosed, fc + 1, t, 0⟩ rfl (by push_cast; omega)
    refine ⟨hrec.1, ?_⟩
    simp only [hrec.2, List.length_cons]
    push_cast
    ring

theorem recordFailures_trip (config : CircuitBreakerConfig) :
    ∀ (ts : List ℚ) (cb : CircuitBreaker), cb.state = .CircuitClosed →
      cb.failureCount + (ts.length : ℤ) = config.FailureThreshold → 1 ≤ ts.length →
      (recordFailures config cb ts).state = .CircuitOpen := by
  intro ts
  induction ts with
  | nil => intro cb _ _ h; exact absurd h (by norm_num)
  | cons t ts ih =>
    rintro ⟨st, fc, lt, sc⟩ hs heq _
    simp only at hs heq
    subst hs
    simp only [List.length_cons] at heq
    push_cast at heq
    rcases Nat.eq_zero_or_pos ts.length with h0 | hpos
    · have hth : config.FailureThreshold ≤ fc + 1 := by omega
      have hstep : CircuitBreaker.RecordFailure config ⟨.CircuitClosed, fc, lt, sc⟩ t =
          ⟨.CircuitOpen, fc + 1, t, 0⟩ := by
        unfold CircuitBreaker.RecordFailure
        simp [hth]
      have hts : ts = [] := List.length_eq_zero.mp h0
      subst hts
      rw [recordFailures, hstep]
      rfl
    · have hnth : ¬(config.FailureThreshold ≤ fc + 1) := by omega
      have hstep : CircuitBreaker.RecordFailure config ⟨.CircuitClosed, fc, lt, sc⟩ t =
          ⟨.CircuitClosed, fc + 1, t, 0⟩ := by
        unfold CircuitBreaker.RecordFailure
        simp [hnth]
      rw [recordFailures, hstep]
      exact ih ⟨.CircuitClosed, fc + 1, t, 0⟩ rfl (by push_cast; omega) hpos

/-- **C3**: starting Closed with failure counter `0`, exactly `FailureThreshold`
consecutive `RecordFailure` calls (no intervening success) reach Open, while
`FailureThreshold - 1` such calls leave the breaker Closed. -/
theorem circuit_threshold (config : CircuitBreakerConfig) (t0 : ℚ) (sc : ℤ)
    (ts ts' : List ℚ)
    (hN : 1 ≤ config.FailureThreshold)
    (hlen : (ts.length : ℤ) = config.FailureThreshold)
    (hlen' : (ts'.length : ℤ) = config.FailureThreshold - 1) :
    (recordFailures config ⟨.CircuitClosed, 0, t0, sc⟩ ts).state = .CircuitOpen ∧
    (recordFailures config ⟨.CircuitClosed, 0, t0, sc⟩ ts').state = .CircuitClosed := by
  constructor
  · exact recordFailures_trip config ts ⟨.CircuitClosed, 0, t0, sc⟩ rfl
      (by simpa using hlen) (by omega)
  · exact (recordFailures_below config ts' ⟨.CircuitClosed, 0, t0, sc⟩ rfl
      (by simp only; omega)).1

/-- Witness for C3 at threshold `2`: two failures trip the breaker, one does
not. -/
theorem circuit_threshold_witness :
    (recordFailures ⟨2, 60, 1/10, 3⟩ ⟨.CircuitClosed, 0, 0, 0⟩ [0, 0]).state =
      .CircuitOpen ∧
    (recordFailures ⟨2, 60, 1/10, 3⟩ ⟨.CircuitClosed, 0, 0, 0⟩ [0]).state =
      .CircuitClosed :=
  circuit_threshold ⟨2, 60, 1/10, 3⟩ 0 0 [0, 0] [0] (by decide) (by decide) (by decide)

theorem recordSuccesses_of_closed (config : CircuitBreakerConfig) :
    ∀ (k : ℕ) (cb : CircuitBreaker), cb.state = .CircuitClosed →
      (recordSuccesses config cb k).state = .CircuitClosed := by
  intro k
  induction k with
  | zero => intro cb h; exact h
  | succ k ih =>
    rintro ⟨st, fc, lt, sc⟩ hs
    simp only at hs
    subst hs
    have hstep : CircuitBreaker.RecordSuccess config ⟨.CircuitClosed, fc, lt, sc⟩ =
        ⟨.CircuitClosed, 0, lt, sc + 1⟩ := by
      unfold CircuitBreaker.RecordSuccess
      simp
    rw [recordSuccesses, hstep]
    exact ih ⟨.CircuitClosed, 0, lt, sc + 1⟩ rfl

theorem recordSuccesses_halfOpen_close (config : CircuitBreakerConfig) :
    ∀ (k : ℕ) (cb : CircuitBreaker), cb.state = .CircuitHalfOpen →
      config.ConsecutiveSuccesses ≤ cb.successCount + (k : ℤ) → 1 ≤ k →
      (recordSuccesses config cb k).state = .CircuitClosed := by
  intro k
  induction k with
  | zero => intro cb _ _ h; exact absurd h (by norm_num)
  | succ k ih =>
    rintro ⟨st, fc, lt, sc⟩ hs hK _
    simp only at hs hK
    subst hs
    push_cast at hK
    by_cases hth : config.ConsecutiveSuccesses ≤ sc + 1
    · have hstep : CircuitBreaker.RecordSuccess config ⟨.CircuitHalfOpen, fc, lt, sc⟩ =
          ⟨.CircuitClosed, 0, lt, 0⟩ := by
        unfold CircuitBreaker.RecordSuccess
        simp [hth]
      rw [recordSuccesses, hstep]
      exact recordSuccesses_of_closed config k ⟨.CircuitClosed, 0, lt, 0⟩ rfl
    · have hstep : CircuitBreaker.RecordSuccess config ⟨.CircuitHalfOpen, fc, lt, sc⟩ =
          ⟨.CircuitHalfOpen, 0, lt, sc + 1⟩ := by
        unfold CircuitBreaker.RecordSuccess
        simp [hth]
      rw [recordSuccesses, hstep]
      exact ih ⟨.CircuitHalfOpen, 0, lt, sc + 1⟩ rfl (by push_cast; omega) (by omega)

/-- Counterexample to C4 as stated: from the HalfOpen state with success
counter `1` — the counter value every reachable HalfOpen state has, since the
only entry into HalfOpen is `RecordSuccess` from Open, which increments the
counter before transitioning — and `ConsecutiveSuccesses = 3`, three
consecutive `RecordSuccess` calls do end Closed, but the success counter ends
at `1`, not `0`: the Closed transition fires at the second call and the third
call increments the counter again. -/
theorem halfOpen_reset_counterexample :
    (recordSuccesses ⟨5, 60, 1/10, 3⟩ ⟨.CircuitHalfOpen, 0, 0, 1⟩ 3).state =
      .CircuitClosed ∧
    ¬((recordSuccesses ⟨5, 60, 1/10, 3⟩ ⟨.CircuitHalfOpen, 0, 0, 1⟩ 3).successCount = 0) := by
  constructor
  · decide
  · decide

/-- **C4 (amended)**: whenever the breaker is HalfOpen (any non-negative
success count), one `RecordFailure` reopens the circuit, and
`ConsecutiveSuccesses` consecutive `RecordSuccess` calls with no intervening
failure leave it Closed; the HalfOpen→Closed transition itself resets the
success counter to `0` (calls after the transition increment it again, so
when the counter starts above `0` it need not end at `0`). -/
theorem halfOpen_recovery (config : CircuitBreakerConfig) (cb : CircuitBreaker)
    (now : ℚ) (K : ℕ)
    (hK : (K : ℤ) = config.ConsecutiveSuccesses) (hK1 : 1 ≤ K)
    (hHalf : cb.state = .CircuitHalfOpen) (hsc : 0 ≤ cb.successCount) :
    (CircuitBreaker.RecordFailure config cb now).state = .CircuitOpen ∧
    (recordSuccesses config cb K).state = .CircuitClosed ∧
    ((CircuitBreaker.RecordSuccess config cb).state = .CircuitClosed →
      (CircuitBreaker.RecordSuccess config cb).successCount = 0) := by
  obtain ⟨st, fc, lt, sc⟩ := cb
  simp only at hHalf hsc
  subst hHalf
  refine ⟨?_, ?_, ?_⟩
  · unfold CircuitBreaker.RecordFailure
    simp
  · exact recordSuccesses_halfOpen_close config K ⟨.CircuitHalfOpen, fc, lt, sc⟩ rfl
      (by show config.ConsecutiveSuccesses ≤ sc + (K : ℤ); omega) hK1
  · intro hclose
    by_cases hth : config.ConsecutiveSuccesses ≤ sc + 1
    · have hstep : CircuitBreaker.RecordSuccess config ⟨.CircuitHalfOpen, fc, lt, sc⟩ =
          ⟨.CircuitClosed, 0, lt, 0⟩ := by
        unfold CircuitBreaker.RecordSuccess
        simp [hth]
      rw [hstep]
    · have hstep : CircuitBreaker.RecordSuccess config ⟨.CircuitHalfOpen, fc, lt, sc⟩ =
          ⟨.CircuitHalfOpen, 0, lt, sc + 1⟩ := by
        unfold CircuitBreaker.RecordSuccess
        simp [hth]
      rw [hstep] at hclose
      exact absurd hclose (by simp)

/-- Witness for the amended C4: HalfOpen with success counter `2` and
threshold `3` — the next success closes the breaker and resets the counter. -/
theorem halfOpen_recovery_witness :
    (CircuitBreaker.RecordFailure ⟨5, 60, 1/10, 3⟩ ⟨.CircuitHalfOpen, 0, 0, 2⟩ 1).state =
      .CircuitOpen ∧
    (recordSuccesses ⟨5, 60, 1/10, 3⟩ ⟨.CircuitHalfOpen, 0, 0, 2⟩ 3).state =
      .CircuitClosed ∧
    ((CircuitBreaker.RecordSuccess ⟨5, 60, 1/10, 3⟩ ⟨.CircuitHalfOpen, 0, 0, 2⟩).state =
        .CircuitClosed →
      (CircuitBreaker.RecordSuccess ⟨5, 60, 1/10, 3⟩
        ⟨.CircuitHalfOpen, 0, 0, 2⟩).successCount = 0) :=
  halfOpen_recovery ⟨5, 60, 1/10, 3⟩ ⟨.CircuitHalfOpen, 0, 0, 2⟩ 1 3 (by decide)
    (by decide) rfl (by decide)

/-- **C10**: `Allow` never modifies the breaker state; in Open after the
recovery timeout it returns `true` with the state still Open; and the only
transition into HalfOpen is `RecordSuccess` called while Open. -/
theorem cbAllow_frame (config : CircuitBreakerConfig) :
    (∀ (cb : CircuitBreaker) (now rand01 : ℚ),
      cbStep config cb (.allowEv now rand01) = cb) ∧
    (∀ (cb : CircuitBreaker) (now rand01 : ℚ), cb.state = .CircuitOpen →
      config.RecoveryTimeout ≤ now - cb.lastFailureTime →
      CircuitBreaker.Allow config cb now rand01 = true) ∧
    (∀ (cb : CircuitBreaker) (e : CBEvent), cb.state ≠ .CircuitHalfOpen →
      (cbStep config cb e).state = .CircuitHalfOpen →
      e = .recordSuccessEv ∧ cb.state = .CircuitOpen) := by
  refine ⟨fun cb now rand01 => rfl, ?_, ?_⟩
  · rintro ⟨st, fc, lt, sc⟩ now rand01 hopen htime
    simp only at hopen
    subst hopen
    simp [CircuitBreaker.Allow, CircuitBreaker.shouldAttemptReset, htime]
  · rintro ⟨st, fc, lt, sc⟩ e hne hstep
    simp only at hne
    cases e with
    | allowEv now rand01 =>
      simp only [cbStep] at hstep
      exact absurd hstep hne
    | recordFailureEv now =>
      simp only [cbStep] at hstep
      unfold CircuitBreaker.RecordFailure at hstep
      dsimp only at hstep
      split_ifs at hstep
      simp_all
    | recordSuccessEv =>
      simp only [cbStep] at hstep
      unfold CircuitBreaker.RecordSuccess at hstep
      dsimp only at hstep
      split_ifs at hstep with h1 h2
      · simp only at h1
        exact ⟨rfl, h1⟩
      · exact absurd hstep hne
    | resetEv =>
      unfold cbStep CircuitBreaker.Reset at hstep
      simp at hstep

/-- Witness for C10: a breaker Open since time `0`, queried at time `60` with
a `60`-second recovery timeout, is admitted while remaining Open, and
`RecordSuccess` from Open is a transition into HalfOpen. -/
theorem cbAllow_frame_witness :
    cbStep ⟨5, 60, 1/10, 3⟩ ⟨.CircuitOpen, 5, 0, 0⟩ (.allowEv 60 0) =
      (⟨.CircuitOpen, 5, 0, 0⟩ : CircuitBreaker) ∧
    CircuitBreaker.Allow ⟨5, 60, 1/10, 3⟩ ⟨.CircuitOpen, 5, 0, 0⟩ 60 0 = true ∧
    (CBEvent.recordSuccessEv = CBEvent.recordSuccessEv ∧
      (⟨.CircuitOpen, 5, 0, 0⟩ : CircuitBreaker).state = .CircuitOpen) := by
  refine ⟨(cbAllow_frame ⟨5, 60, 1/10, 3⟩).1 _ 60 0,
    (cbAllow_frame ⟨5, 60, 1/10, 3⟩).2.1 _ 60 0 rfl (by norm_num),
    (cbAllow_frame ⟨5, 60, 1/10, 3⟩).2.2 ⟨.CircuitOpen, 5, 0, 0⟩ .recordSuccessEv
      (by decide) (by decide)⟩

theorem recordFailure_count (d t : ℚ) : ∀ (k : ℕ) (m : Monitor),
    ((fun m => Monitor.RecordFailure m d t)^[k] m).responseTimes.length =
      m.responseTimes.length + k := by
  intro k
  induction k with
  | zero => intro m; simp
  | succ k ih =>
    intro m
    rw [Function.iterate_succ_apply, ih]
    simp [Monitor.RecordFailure]
    omega

/-- `RecordSuccess` does keep the retained sample count at or below `1000`. -/
theorem recordSuccess_bounded (m : Monitor) (d t : ℚ)
    (h : m.responseTimes.length ≤ 1000) :
    (Monitor.RecordSuccess m d t).responseTimes.length ≤ 1000 := by
  unfold Monitor.RecordSuccess
  dsimp only
  split_ifs with h1 <;> simp_all
  omega

/-- Closed instance of `recordSuccess_bounded`. -/
theorem recordSuccess_bounded_witness :
    (Monitor.RecordSuccess NewMonitor 1 0).responseTimes.length ≤ 1000 :=
  recordSuccess_bounded NewMonitor 1 0 (by decide)

/-- **C5** (evaluation at the failing input): `1001` consecutive
`Monitor.RecordFailure` calls retain `1001` latency samples, above the
`1000`-sample cap the spec states — `RecordFailure` appends without the
eviction step that `RecordSuccess` performs. -/
theorem metrics_bound_violated :
    ((fun m => Monitor.RecordFailure m 1 0)^[1001] NewMonitor).responseTimes.length
      = 1001 ∧
    1000 <
      ((fun m => Monitor.RecordFailure m 1 0)^[1001] NewMonitor).responseTimes.length := by
  have h := recordFailure_count 1 0 1001 NewMonitor
  have h0 : NewMonitor.responseTimes.length = 0 := rfl
  rw [h0] at h
  exact ⟨by omega, by omega⟩

/-- **C8**: when the rate limiter denies the request, `Chat` returns an error
immediately, the monitor gains exactly one rate-limited request (and the
total-request count it implies), the circuit breaker is untouched, and the
retry manager and underlying operation are never invoked. -/
theorem chat_rateLimited_frame (config : ReliabilityConfig) (s : AgentState)
    (now sinceCB sinceEnd cbRand : ℚ)
    (op : ℕ → Except GoError String) (ctxDone : ℕ → Bool) (ctxErr : GoError)
    (hdeny : (RateLimiter.Allow config.RateLimit s.rateLimiter now).1 = false) :
    (ResilientAgent.Chat config s now sinceCB sinceEnd cbRand op ctxDone ctxErr).err =
      some ("rate limit exceeded".toList) ∧
    (ResilientAgent.Chat config s now sinceCB sinceEnd cbRand op ctxDone ctxErr).state.monitor =
      { s.monitor with totalRequests := s.monitor.totalRequests + 1,
                       rateLimitedRequests := s.monitor.rateLimitedRequests + 1 } ∧
    (ResilientAgent.Chat config s now sinceCB sinceEnd cbRand op ctxDone ctxErr).state.circuitBreaker =
      s.circuitBreaker ∧
    (ResilientAgent.Chat config s now sinceCB sinceEnd cbRand op ctxDone ctxErr).opCalls = 0 := by
  unfold ResilientAgent.Chat
  simp [hdeny, Monitor.RecordRateLimited]

/-- Witness for C8: an empty bucket at the refill instant denies the call. -/
theorem chat_rateLimited_frame_witness :
    (ResilientAgent.Chat ⟨⟨3, 1/10, 30, 2, 0, []⟩, ⟨5, 60, 1/10, 3⟩, ⟨60, 10⟩,
        ⟨true, true, 1/20, 86400⟩⟩ ⟨⟨0, 0, []⟩, NewCircuitBreaker, NewMonitor⟩
        0 0 0 0 (fun _ => .ok "") (fun _ => false) []).err =
      some ("rate limit exceeded".toList) ∧
    (ResilientAgent.Chat ⟨⟨3, 1/10, 30, 2, 0, []⟩, ⟨5, 60, 1/10, 3⟩, ⟨60, 10⟩,
        ⟨true, true, 1/20, 86400⟩⟩ ⟨⟨0, 0, []⟩, NewCircuitBreaker, NewMonitor⟩
        0 0 0 0 (fun _ => .ok "") (fun _ => false) []).state.monitor =
      { NewMonitor with totalRequests := NewMonitor.totalRequests + 1,
                        rateLimitedRequests := NewMonitor.rateLimitedRequests + 1 } ∧
    (ResilientAgent.Chat ⟨⟨3, 1/10, 30, 2, 0, []⟩, ⟨5, 60, 1/10, 3⟩, ⟨60, 10⟩,
        ⟨true, true, 1/20, 86400⟩⟩ ⟨⟨0, 0, []⟩, NewCircuitBreaker, NewMonitor⟩
        0 0 0 0 (fun _ => .ok "") (fun _ => false) []).state.circuitBreaker =
      NewCircuitBreaker ∧
    (ResilientAgent.Chat ⟨⟨3, 1/10, 30, 2, 0, []⟩, ⟨5, 60, 1/10, 3⟩, ⟨60, 10⟩,
        ⟨true, true, 1/20, 86400⟩⟩ ⟨⟨0, 0, []⟩, NewCircuitBreaker, NewMonitor⟩
        0 0 0 0 (fun _ => .ok "") (fun _ => false) []).opCalls = 0 :=
  chat_rateLimited_frame ⟨⟨3, 1/10, 30, 2, 0, []⟩, ⟨5, 60, 1/10, 3⟩, ⟨60, 10⟩,
    ⟨true, true, 1/20, 86400⟩⟩ ⟨⟨0, 0, []⟩, NewCircuitBreaker, NewMonitor⟩
    0 0 0 0 (fun _ => .ok "") (fun _ => false) [] (by norm_num [RateLimiter.Allow])

theorem bubblePass_perm : ∀ l : List ℚ, (bubblePass l).Perm l
  | [] => by simp [bubblePass]
  | [a] => by simp [bubblePass]
  | a :: b :: rest => by
    unfold bubblePass
    split_ifs with h
    · exact ((bubblePass_perm (a :: rest)).cons b).trans (List.Perm.swap a b rest)
    · exact (bubblePass_perm (b :: rest)).cons a
  termination_by l => l.length
  decreasing_by all_goals simp

theorem bubblePass_ne_nil (l : List ℚ) (h : l ≠ []) : bubblePass l ≠ [] := by
  intro hc
  have hlen := (bubblePass_perm l).length_eq
  rw [hc] at hlen
  exact h (List.eq_nil_of_length_eq_zero (by simpa using hlen.symm))

theorem bubblePass_le_getLast :
    ∀ (l : List ℚ) (y : ℚ), (bubblePass l).getLast? = some y → ∀ x ∈ l, x ≤ y
  | [], y, hy => by simp [bubblePass] at hy
  | [a], y, hy => by
    simp [bubblePass] at hy
    intro x hx
    simp at hx
    rw [hx, hy]
  | a :: b :: rest, y, hy => by
    unfold bubblePass at hy
    split_ifs at hy with hab
    · obtain ⟨c, L, hL⟩ : ∃ c L, bubblePass (a :: rest) = c :: L := by
        cases hcase : bubblePass (a :: rest) with
        | nil => exact absurd hcase (bubblePass_ne_nil _ (by simp))
        | cons c L => exact ⟨c, L, rfl⟩
      rw [hL, List.getLast?_cons_cons] at hy
      have ihall : ∀ x ∈ a :: rest, x ≤ y :=
        bubblePass_le_getLast (a :: rest) y (by rw [hL]; exact hy)
      intro x hx
      rcases List.mem_cons.mp hx with rfl | hx'
      · exact ihall x (by simp)
      · rcases List.mem_cons.mp hx' with rfl | hx''
        · exact (le_of_lt hab).trans (ihall a (by simp))
        · exact ihall x (by simp [hx''])
    · obtain ⟨c, L, hL⟩ : ∃ c L, bubblePass (b :: rest) = c :: L := by
        cases hcase : bubblePass (b :: rest) with
        | nil => exact absurd hcase (bubblePass_ne_nil _ (by simp))
        | cons c L => exact ⟨c, L, rfl⟩
      rw [hL, List.getLast?_cons_cons] at hy
      have ihall : ∀ x ∈ b :: rest, x ≤ y :=
        bubblePass_le_getLast (b :: rest) y (by rw [hL]; exact hy)
      intro x hx
      rcases List.mem_cons.mp hx with rfl | hx'
      · exact (not_lt.mp hab).trans (ihall b (by simp))
      · exact ihall x hx'
  termination_by l => l.length
  decreasing_by all_goals simp

theorem bubblePass_of_sorted : ∀ l : List ℚ, l.Sorted (· ≤ ·) → bubblePass l = l
  | [], _ => by simp [bubblePass]
  | [_], _ => by simp [bubblePass]
  | a :: b :: rest, h => by
    have hab : a ≤ b := List.rel_of_sorted_cons h b (by simp)
    unfold bubblePass
    rw [if_neg (not_lt.mpr hab), bubblePass_of_sorted (b :: rest) h.of_cons]
  termination_by l => l.length
  decreasing_by all_goals simp

theorem bubblePass_append :
    ∀ (front back : List ℚ), back.Sorted (· ≤ ·) →
      (∀ x ∈ front, ∀ y ∈ back, x ≤ y) →
      bubblePass (front ++ back) = bubblePass front ++ back
  | [], back, hs, _ => by
    simp [bubblePass, bubblePass_of_sorted back hs]
  | [a], back, hs, hfb => by
    cases back with
    | nil => simp
    | cons b back' =>
      have hab : a ≤ b := hfb a (by simp) b (by simp)
      show bubblePass (a :: b :: back') = bubblePass [a] ++ (b :: back')
      unfold bubblePass
      rw [if_neg (not_lt.mpr hab), bubblePass_of_sorted (b :: back') hs]
      rfl
  | a :: a' :: front', back, hs, hfb => by
    have hfb1 : ∀ x ∈ a :: front', ∀ y ∈ back, x ≤ y := by
      intro x hx y hy
      rcases List.mem_cons.mp hx with rfl | hx'
      · exact hfb x (by simp) y hy
      · exact hfb x (by simp [hx']) y hy
    have hfb2 : ∀ x ∈ a' :: front', ∀ y ∈ back, x ≤ y := by
      intro x hx y hy
      rcases List.mem_cons.mp hx with rfl | hx'
      · exact hfb x (by simp) y hy
      · exact hfb x (by simp [hx']) y hy
    show bubblePass ((a :: a' :: front') ++ back) = bubblePass (a :: a' :: front') ++ back
    simp only [List.cons_append]
    unfold bubblePass
    by_cases h : a' < a
    · rw [if_pos h, if_pos h]
      have hrec := bubblePass_append (a :: front') back hs hfb1
      simp only [List.cons_append] at hrec
      rw [hrec]
      rfl
    · rw [if_neg h, if_neg h]
      have hrec := bubblePass_append (a' :: front') back hs hfb2
      simp only [List.cons_append] at hrec
      rw [hrec]
      rfl
  termination_by front _ => front.length
  decreasing_by all_goals simp

theorem bubblePass_iter_sorted :
    ∀ (n : ℕ) (front back : List ℚ), front.length ≤ n → back.Sorted (· ≤ ·) →
      (∀ x ∈ front, ∀ y ∈ back, x ≤ y) →
      (bubblePass^[n] (front ++ back)).Sorted (· ≤ ·) := by
  intro n
  induction n with
  | zero =>
    intro front back hlen hs _
    have hf : front = [] := List.eq_nil_of_length_eq_zero (Nat.le_zero.mp hlen)
    subst hf
    simpa using hs
  | succ n ih =>
    intro front back hlen hs hfb
    rw [Function.iterate_succ_apply, bubblePass_append front back hs hfb]
    by_cases hf : front = []
    · subst hf
      have hbp : bubblePass ([] : List ℚ) = [] := by simp [bubblePass]
      rw [hbp, List.nil_append]
      have := ih [] back (by simp) hs (by simp)
      simpa using this
    · have hne : bubblePass front ≠ [] := bubblePass_ne_nil front hf
      have hy : (bubblePass front).getLast? = some ((bubblePass front).getLast hne) :=
        List.getLast?_eq_getLast _ hne
      set y := (bubblePass front).getLast hne with hydef
      have hymax : ∀ x ∈ front, x ≤ y := bubblePass_le_getLast front y hy
      have hymem : y ∈ front := (bubblePass_perm front).subset (List.getLast_mem hne)
      have hyback : ∀ z ∈ back, y ≤ z := fun z hz => hfb y hymem z hz
      have hdecomp : (bubblePass front).dropLast ++ [y] = bubblePass front :=
        List.dropLast_append_getLast hne
      have hsorted' : (y :: back).Sorted (· ≤ ·) := List.sorted_cons.mpr ⟨hyback, hs⟩
      have hcond' : ∀ x ∈ (bubblePass front).dropLast, ∀ z ∈ y :: back, x ≤ z := by
        intro x hx z hz
        have hxf : x ∈ bubblePass front := by
          rw [← hdecomp]
          exact List.mem_append_left _ hx
        have hxfront : x ∈ front := (bubblePass_perm front).subset hxf
        rcases List.mem_cons.mp hz with rfl | hz'
        · exact hymax x hxfront
        · exact hfb x hxfront z hz'
      have hlen' : (bubblePass front).dropLast.length ≤ n := by
        have h1 := (bubblePass_perm front).length_eq
        have h2 := List.length_dropLast (bubblePass front)
        have h3 : front.length ≠ 0 := fun hc => hf (List.eq_nil_of_length_eq_zero hc)
        omega
      have hsplit : bubblePass front ++ back =
          (bubblePass front).dropLast ++ (y :: back) := by
        rw [← hdecomp]
        simp [List.append_assoc]
      rw [hsplit]
      exact ih _ _ hlen' hsorted' hcond'

theorem bubbleSort_sorted (l : List ℚ) : (bubbleSort l).Sorted (· ≤ ·) := by
  have h := bubblePass_iter_sorted l.length l [] le_rfl (by simp) (by simp)
  simpa [bubbleSort] using h

theorem bubblePass_iter_perm : ∀ (n : ℕ) (l : List ℚ), (bubblePass^[n] l).Perm l := by
  intro n
  induction n with
  | zero => intro l; rw [Function.iterate_zero_apply]
  | succ n ih =>
    intro l
    rw [Function.iterate_succ_apply]
    exact (ih (bubblePass l)).trans (bubblePass_perm l)

theorem bubbleSort_perm (l : List ℚ) : (bubbleSort l).Perm l :=
  bubblePass_iter_perm l.length l

theorem bubbleSort_of_sorted (l : List ℚ) (h : l.Sorted (· ≤ ·)) : bubbleSort l = l := by
  unfold bubbleSort
  generalize l.length = n
  induction n with
  | zero => rw [Function.iterate_zero_apply]
  | succ n ih =>
    rw [Function.iterate_succ_apply, bubblePass_of_sorted l h, ih]

theorem getMetrics_p95 (m : Monitor) (cb : CircuitBreaker) (rl : RateLimiter)
    (h20 : 20 ≤ m.responseTimes.length) :
    (Monitor.GetMetrics m cb rl).P95ResponseTime =
      (bubbleSort m.responseTimes).getD
        (Nat.floor (((bubbleSort m.responseTimes).length : ℚ) * (95 / 100))) 0 := by
  have h0 : 0 < m.responseTimes.length := by omega
  unfold Monitor.GetMetrics
  simp only [if_pos h0, if_pos h20]

theorem getMetrics_p95_small (m : Monitor) (cb : CircuitBreaker) (rl : RateLimiter)
    (h : m.responseTimes.length < 20) :
    (Monitor.GetMetrics m cb rl).P95ResponseTime = 0 := by
  have h20 : ¬(20 ≤ m.responseTimes.length) := by omega
  unfold Monitor.GetMetrics
  by_cases h0 : 0 < m.responseTimes.length
  · simp only [if_pos h0, if_neg h20]
  · simp only [if_neg h0]

/-- Counterexample to C9 as stated: for the 20 samples `1..20` the code's
`P95ResponseTime` is the 20th smallest (`sorted[19] = 20`), while the
nearest-rank 95th percentile is the `⌈0.95·20⌉ = 19`-th smallest (`19`). -/
theorem p95_not_nearestRank :
    (Monitor.GetMetrics ⟨20, 20, 0, 0, 0, 0, 0, 0, sample20, 0, 0⟩ NewCircuitBreaker
        (NewRateLimiter ⟨60, 10⟩ 0)).P95ResponseTime ≠ nearestRank95 sample20 := by
  have hsorted : sample20.Sorted (· ≤ ·) := by norm_num [sample20, List.sorted_cons]
  have hbs : bubbleSort sample20 = sample20 := bubbleSort_of_sorted _ hsorted
  have hq : ((sample20.length : ℚ) * (95 / 100)) = ((19 : ℕ) : ℚ) := by
    norm_num [sample20]
  have hL := getMetrics_p95 ⟨20, 20, 0, 0, 0, 0, 0, 0, sample20, 0, 0⟩ NewCircuitBreaker
    (NewRateLimiter ⟨60, 10⟩ 0) (by norm_num [sample20])
  rw [hL]
  show (bubbleSort sample20).getD
      (Nat.floor (((bubbleSort sample20).length : ℚ) * (95 / 100))) 0 ≠
    nearestRank95 sample20
  unfold nearestRank95
  rw [hbs, hq, Nat.floor_natCast, Nat.ceil_natCast]
  norm_num [sample20]

/-- **C9 (amended)**: for `n ≥ 20` retained samples, `P95ResponseTime` equals
the `(⌊0.95·n⌋+1)`-th smallest sample — the element at zero-based index
`⌊0.95·n⌋` of the ascending sorted copy (any sorted rearrangement `s`) — and
for `n < 20` the field is left at `0`. -/
theorem p95_sorted_index (m : Monitor) (cb : CircuitBreaker) (rl : RateLimiter)
    (s : List ℚ) (hperm : s.Perm m.responseTimes) (hsort : s.Sorted (· ≤ ·)) :
    (20 ≤ m.responseTimes.length →
      (Monitor.GetMetrics m cb rl).P95ResponseTime =
        s.getD (Nat.floor ((m.responseTimes.length : ℚ) * (95 / 100))) 0) ∧
    (m.responseTimes.length < 20 →
      (Monitor.GetMetrics m cb rl).P95ResponseTime = 0) := by
  have hseq : s = bubbleSort m.responseTimes :=
    List.eq_of_perm_of_sorted (hperm.trans (bubbleSort_perm m.responseTimes).symm)
      hsort (bubbleSort_sorted _)
  constructor
  · intro h20
    rw [getMetrics_p95 m cb rl h20, ← hseq, hperm.length_eq]
  · exact getMetrics_p95_small m cb rl

/-- Witness for the amended C9 on the samples `1..20`. -/
theorem p95_sorted_index_witness :
    (Monitor.GetMetrics ⟨20, 20, 0, 0, 0, 0, 0, 0, sample20, 0, 0⟩ NewCircuitBreaker
        (NewRateLimiter ⟨60, 10⟩ 0)).P95ResponseTime =
      sample20.getD
        (Nat.floor (((⟨20, 20, 0, 0, 0, 0, 0, 0, sample20, 0, 0⟩ : Monitor).responseTimes.length : ℚ)
          * (95 / 100))) 0 :=
  (p95_sorted_index ⟨20, 20, 0, 0, 0, 0, 0, 0, sample20, 0, 0⟩ NewCircuitBreaker
      (NewRateLimiter ⟨60, 10⟩ 0) sample20 (List.Perm.refl _)
      (by norm_num [sample20, List.sorted_cons])).1 (by norm_num [sample20])
